import Mathlib

/-!
Shallow embedding of the pin/GC core of go-ipfs-pinner (src/gc/gc.go:
package gc and package pin).

Keys are content addresses; we model them as naturals.  A DAG node is a
key together with the list of its link (child) keys.  The DAG service
(`dserv` in the source) is modelled as a partial map from keys to the
link list of the node stored under that key; `none` models a fetch
error.  Go's in-place mutation of the pinner becomes explicit state
passing on `PinState`; operations return the (possibly partially
mutated) state together with an optional error, mirroring the fact that
the Go code mutates before it can fail.  Recursive DAG walks take a
fuel parameter so that they are total; fuel exhaustion is reported as a
distinct error that no real (finite, acyclic) run produces.
-/

namespace IpfsPin

abbrev Key := Nat

/-- A DAG node: its key and the keys of its links (mdag.Node). -/
structure Node where
  key : Key
  links : List Key
deriving DecidableEq, Repr

/-- The DAG service: fetching a key yields the links of the stored node,
or `none` on a fetch error. -/
abbrev Dserv := Key → Option (List Key)

/-- Pinner state: the recursive pin set, the direct pin set and the
indirect reference-count map.

The indirect map is `Modelled from the spec:` the `indirectPin`
implementation is not part of the sources; the spec states that a key
is in the indirect map iff its reference count is at least 1, the count
equals the number of live (recursive-pin, path) attributions, and the
entry is removed when the count reaches 0.  A multiset captures this
exactly: `Increment` adds one occurrence, `Decrement` removes one,
membership is count ≥ 1. -/
structure PinState where
  recursePin : Finset Key
  directPin : Finset Key
  indirPin : Multiset Key
deriving DecidableEq

/-- Errors a pin/unpin operation can return. -/
inductive PinErr where
  | fetchFail (k : Key)
  | outOfFuel
  | alreadyRecursive (k : Key)
  | pinnedRecursively (k : Key)
  | pinnedIndirectly (k : Key)
  | notPinned (k : Key)
deriving DecidableEq, Repr

/-- The walk performed by `pinner.pinLinks` / `pinner.pinIndirectRecurse`:
for every child key in the work list, fetch its node (a fetch error
aborts, leaving the state as mutated so far), increment the child's
indirect count, then recurse into the child's own links before moving
on to the next sibling. -/
def pinDescend (dserv : Dserv) : Nat → List Key → PinState → Option PinErr × PinState
  | _, [], st => (none, st)
  | 0, _ :: _, st => (some PinErr.outOfFuel, st)
  | fuel+1, c :: rest, st =>
    match dserv c with
    | none => (some (PinErr.fetchFail c), st)
    | some ls =>
      match pinDescend dserv fuel ls ⟨st.recursePin, st.directPin, c ::ₘ st.indirPin⟩ with
      | (some e, st2) => (some e, st2)
      | (none, st2) => pinDescend dserv fuel rest st2

/-- The walk performed by `pinner.unpinLinks`: for every child key in
the work list, fetch its node (a fetch error aborts), decrement the
child's indirect count, then recurse into the child's own links before
moving on to the next sibling. -/
def unpinDescend (dserv : Dserv) : Nat → List Key → PinState → Option PinErr × PinState
  | _, [], st => (none, st)
  | 0, _ :: _, st => (some PinErr.outOfFuel, st)
  | fuel+1, c :: rest, st =>
    match dserv c with
    | none => (some (PinErr.fetchFail c), st)
    | some ls =>
      match unpinDescend dserv fuel ls ⟨st.recursePin, st.directPin, st.indirPin.erase c⟩ with
      | (some e, st2) => (some e, st2)
      | (none, st2) => unpinDescend dserv fuel rest st2

/-- `pinner.Pin`.  Recursive mode: a no-op if already recursively
pinned; otherwise any existing direct pin on the key is removed first,
then the transitive closure of the node's links is walked incrementing
indirect counts, and only on success is the key added to the recursive
set.  Direct mode: the node must be fetchable and not recursively
pinned; then the key is added to the direct set. -/
def Pin (dserv : Dserv) (fuel : Nat) (node : Node) (recurse : Bool) (st : PinState) :
    Option PinErr × PinState :=
  if recurse then
    if node.key ∈ st.recursePin then (none, st)
    else
      match pinDescend dserv fuel node.links
          ⟨st.recursePin, st.directPin.erase node.key, st.indirPin⟩ with
      | (some e, st2) => (some e, st2)
      | (none, st2) => (none, ⟨insert node.key st2.recursePin, st2.directPin, st2.indirPin⟩)
  else
    match dserv node.key with
    | none => (some (PinErr.fetchFail node.key), st)
    | some _ =>
      if node.key ∈ st.recursePin then (some (PinErr.alreadyRecursive node.key), st)
      else (none, ⟨st.recursePin, insert node.key st.directPin, st.indirPin⟩)

/-- `pinner.Unpin`.  If the key is recursively pinned, the call must be
recursive; the key is removed from the recursive set first, then the
node is fetched and the descendant walk decrements indirect counts.
Otherwise a direct pin is removed regardless of the flag; an indirect
pin cannot be removed; an unpinned key is an error. -/
def Unpin (dserv : Dserv) (fuel : Nat) (k : Key) (recursive : Bool) (st : PinState) :
    Option PinErr × PinState :=
  if k ∈ st.recursePin then
    if recursive then
      match dserv k with
      | none => (some (PinErr.fetchFail k), ⟨st.recursePin.erase k, st.directPin, st.indirPin⟩)
      | some ls => unpinDescend dserv fuel ls ⟨st.recursePin.erase k, st.directPin, st.indirPin⟩
    else (some (PinErr.pinnedRecursively k), st)
  else if k ∈ st.directPin then
    (none, ⟨st.recursePin, st.directPin.erase k, st.indirPin⟩)
  else if k ∈ st.indirPin then
    (some (PinErr.pinnedIndirectly k), st)
  else (some (PinErr.notPinned k), st)

/-- `pinner.IsPinned`: in the recursive set, the direct set or the
indirect map. -/
def IsPinned (st : PinState) (k : Key) : Bool :=
  decide (k ∈ st.recursePin) || decide (k ∈ st.directPin) || decide (k ∈ st.indirPin)

/-- `pin.PinMode` is an integer enumeration in the source. -/
def Recursive : Nat := 0

def Direct : Nat := 1

def Indirect : Nat := 2

def NotPinned : Nat := 3

/-- `pinner.PinWithMode`: a switch with cases for Recursive, Direct and
Indirect and no default case, so any other mode falls through as a
no-op. -/
def PinWithMode (k : Key) (mode : Nat) (st : PinState) : PinState :=
  if mode = Recursive then ⟨insert k st.recursePin, st.directPin, st.indirPin⟩
  else if mode = Direct then ⟨st.recursePin, insert k st.directPin, st.indirPin⟩
  else if mode = Indirect then ⟨st.recursePin, st.directPin, k ::ₘ st.indirPin⟩
  else st

/-- `pinner.RemovePinWithMode`: a switch with cases for Direct, Indirect
and Recursive whose default case panics ("unrecognized pin type");
the panic is modelled as `none`. -/
def RemovePinWithMode (k : Key) (mode : Nat) (st : PinState) : Option PinState :=
  if mode = Direct then some ⟨st.recursePin, st.directPin.erase k, st.indirPin⟩
  else if mode = Indirect then some ⟨st.recursePin, st.directPin, st.indirPin.erase k⟩
  else if mode = Recursive then some ⟨st.recursePin.erase k, st.directPin, st.indirPin⟩
  else none

/-- The multiset of keys visited by the descendant walk started on a
work list: each key once per path along which the walk reaches it,
`none` when some fetch fails (or fuel runs out), mirroring the control
flow of `pinDescend`/`unpinDescend`. -/
def walkMS (dserv : Dserv) : Nat → List Key → Option (Multiset Key)
  | _, [] => some 0
  | 0, _ :: _ => none
  | fuel+1, c :: rest =>
    match dserv c with
    | none => none
    | some ls =>
      match walkMS dserv fuel ls, walkMS dserv fuel rest with
      | some m1, some m2 => some (c ::ₘ (m1 + m2))
      | _, _ => none

/-! GC side (package gc).  Link resolution during the colored-set build
distinguishes a not-found error from other failures, because the
best-effort traversal policy tolerates exactly not-found. -/

/-- Outcome of resolving a key's links during the colored-set build. -/
inductive FetchRes where
  | found (links : List Key)
  | notFound
  | failed
deriving DecidableEq, Repr

/-- The node getter used by the colored-set build. -/
abbrev Ng := Key → FetchRes

/-- `gc.Result`: an incremental output of a GC run — a removed key or
one of the error kinds the run can emit. -/
inductive Result where
  | keyRemoved (k : Key)
  | cannotFetchLinks (k : Key)
  | cannotDeleteBlock (k : Key)
  | errCannotFetchAllLinks
  | errCannotDeleteSomeBlocks
deriving DecidableEq, Repr

/-- State threaded through the colored-set build: the set under
construction (`gcs`), the `errors` flag, and the results emitted so far
on the output channel. -/
structure CSState where
  gcs : Finset Key
  errs : Bool
  out : List Result
deriving DecidableEq

/-- A link getter as used inside `gc.ColoredSet`: returns the links and
may emit results / set the error flag.  (The Go closures always return
a nil error to the traversal.) -/
abbrev GetL := Key → CSState → List Key × CSState

/-- The strict `getLinks` closure of `gc.ColoredSet`: any resolution
failure sets the error flag and emits a `CannotFetchLinksError`, and the
traversal continues with no links. -/
def strictLinks (ng : Ng) : GetL := fun k s =>
  match ng k with
  | FetchRes.found ls => (ls, s)
  | FetchRes.notFound => ([], ⟨s.gcs, true, s.out ++ [Result.cannotFetchLinks k]⟩)
  | FetchRes.failed => ([], ⟨s.gcs, true, s.out ++ [Result.cannotFetchLinks k]⟩)

/-- The `bestEffortGetLinks` closure of `gc.ColoredSet`: a not-found
failure is tolerated silently; any other failure sets the error flag
and emits a `CannotFetchLinksError`. -/
def beLinks (ng : Ng) : GetL := fun k s =>
  match ng k with
  | FetchRes.found ls => (ls, s)
  | FetchRes.notFound => ([], s)
  | FetchRes.failed => ([], ⟨s.gcs, true, s.out ++ [Result.cannotFetchLinks k]⟩)

/-- `dag.EnumerateChildren`'s child loop: for each key in the work
list, if it is not yet in the set, add it (set.Visit), resolve its
links and recurse into them before moving on to the next sibling. -/
def enumKids (getL : GetL) : Nat → List Key → CSState → CSState
  | _, [], s => s
  | 0, _ :: _, s => s
  | fuel+1, c :: rest, s =>
    if c ∈ s.gcs then enumKids getL fuel rest s
    else
      match getL c ⟨insert c s.gcs, s.errs, s.out⟩ with
      | (ls, s2) => enumKids getL fuel rest (enumKids getL fuel ls s2)

/-- `gc.Descendants`: for each root, add it to the set and enumerate
its children recursively. -/
def descendants (getL : GetL) (fuel : Nat) : List Key → CSState → CSState
  | [], s => s
  | c :: rest, s =>
    match getL c ⟨insert c s.gcs, s.errs, s.out⟩ with
    | (ls, s2) => descendants getL fuel rest (enumKids getL fuel ls s2)

/-- The step of `gc.ColoredSet` that adds the direct pins to the set
with no descent. -/
def csAfterDirect (directKeys : List Key) (s : CSState) : CSState :=
  ⟨directKeys.foldl (fun g k => insert k g) s.gcs, s.errs, s.out⟩

/-- The build pipeline of `gc.ColoredSet`: strict traversal from the
recursive pins, then best-effort traversal from the best-effort roots,
then the direct pins (no descent), then strict traversal from the
internal pins. -/
def csBuild (ng : Ng) (fuel : Nat)
    (recursiveKeys bestEffortRoots directKeys internalPins : List Key) : CSState :=
  descendants (strictLinks ng) fuel internalPins
    (csAfterDirect directKeys
      (descendants (beLinks ng) fuel bestEffortRoots
        (descendants (strictLinks ng) fuel recursiveKeys ⟨∅, false, []⟩)))

/-- `gc.ColoredSet`: run the build pipeline; if any failure was
recorded the build returns no set and the terminal
"could not retrieve some links" error. -/
def ColoredSet (ng : Ng) (fuel : Nat)
    (recursiveKeys bestEffortRoots directKeys internalPins : List Key) :
    Option (Finset Key) × List Result :=
  if (csBuild ng fuel recursiveKeys bestEffortRoots directKeys internalPins).errs then
    (none, (csBuild ng fuel recursiveKeys bestEffortRoots directKeys internalPins).out)
  else
    (some (csBuild ng fuel recursiveKeys bestEffortRoots directKeys internalPins).gcs,
     (csBuild ng fuel recursiveKeys bestEffortRoots directKeys internalPins).out)

/-- The sweep loop of `gc.GC`: for each stored key not in the colored
set, attempt deletion; a success emits a removed-key result, a failure
emits a per-key error, leaves the key in the store, sets the failure
flag and the sweep continues.  Returns the emitted results in store
order, the remaining store contents and the failure flag. -/
def sweep (gcs : Finset Key) (canDelete : Key → Bool) :
    List Key → List Result × List Key × Bool
  | [] => ([], [], false)
  | k :: rest =>
    match sweep gcs canDelete rest with
    | (rs, keep, e) =>
      if k ∈ gcs then (rs, k :: keep, e)
      else if canDelete k then (Result.keyRemoved k :: rs, keep, e)
      else (Result.cannotDeleteBlock k :: rs, k :: keep, true)

/-- `gc.GC`: build the colored set; on a terminal build error emit it
as the last result and stop with the store untouched; otherwise sweep,
and after the store enumeration is exhausted emit the aggregate
"could not delete some blocks" error iff some deletion failed.
The store is modelled as its key population plus a predicate saying
which keys the blockstore can successfully delete. -/
def GC (ng : Ng) (fuel : Nat)
    (recursiveKeys bestEffortRoots directKeys internalPins : List Key)
    (store : List Key) (canDelete : Key → Bool) : List Result × List Key :=
  match ColoredSet ng fuel recursiveKeys bestEffortRoots directKeys internalPins with
  | (none, out) => (out ++ [Result.errCannotFetchAllLinks], store)
  | (some gcs, out) =>
    match sweep gcs canDelete store with
    | (rs, keep, e) =>
      (out ++ rs ++ (if e then [Result.errCannotDeleteSomeBlocks] else []), keep)

/-! Helper lemmas about the descendant walks. -/

/-- The pinning walk never touches the recursive or direct sets and
only ever adds to the indirect map, whether it succeeds or fails. -/
theorem pinDescend_state (dserv : Dserv) :
    ∀ (fuel : Nat) (ks : List Key) (st : PinState),
      (pinDescend dserv fuel ks st).2.recursePin = st.recursePin ∧
      (pinDescend dserv fuel ks st).2.directPin = st.directPin ∧
      st.indirPin ≤ (pinDescend dserv fuel ks st).2.indirPin := by
  intro fuel
  induction fuel with
  | zero =>
    intro ks st
    cases ks <;> simp [pinDescend]
  | succ n ih =>
    intro ks st
    cases ks with
    | nil => simp [pinDescend]
    | cons c rest =>
      simp only [pinDescend]
      cases hdc : dserv c with
      | none => simp
      | some ls =>
        simp only
        have h1 := ih ls ⟨st.recursePin, st.directPin, c ::ₘ st.indirPin⟩
        rcases hpd : pinDescend dserv n ls ⟨st.recursePin, st.directPin, c ::ₘ st.indirPin⟩ with
          ⟨e, st2⟩
        rw [hpd] at h1
        have hle : st.indirPin ≤ st2.indirPin :=
          le_trans (Multiset.le_cons_self _ _) h1.2.2
        cases e with
        | some err => exact ⟨h1.1, h1.2.1, hle⟩
        | none =>
          have h2 := ih rest st2
          exact ⟨h1.1 ▸ h2.1, h1.2.1 ▸ h2.2.1, le_trans hle h2.2.2⟩

/-- The unpinning walk never touches the recursive or direct sets and
only ever removes from the indirect map, whether it succeeds or
fails. -/
theorem unpinDescend_state (dserv : Dserv) :
    ∀ (fuel : Nat) (ks : List Key) (st : PinState),
      (unpinDescend dserv fuel ks st).2.recursePin = st.recursePin ∧
      (unpinDescend dserv fuel ks st).2.directPin = st.directPin ∧
      (unpinDescend dserv fuel ks st).2.indirPin ≤ st.indirPin := by
  intro fuel
  induction fuel with
  | zero =>
    intro ks st
    cases ks <;> simp [unpinDescend]
  | succ n ih =>
    intro ks st
    cases ks with
    | nil => simp [unpinDescend]
    | cons c rest =>
      simp only [unpinDescend]
      cases hdc : dserv c with
      | none => simp
      | some ls =>
        simp only
        have h1 := ih ls ⟨st.recursePin, st.directPin, st.indirPin.erase c⟩
        rcases hpd : unpinDescend dserv n ls ⟨st.recursePin, st.directPin, st.indirPin.erase c⟩
          with ⟨e, st2⟩
        rw [hpd] at h1
        have hle : st2.indirPin ≤ st.indirPin :=
          le_trans h1.2.2 (Multiset.erase_le _ _)
        cases e with
        | some err => exact ⟨h1.1, h1.2.1, hle⟩
        | none =>
          have h2 := ih rest st2
          exact ⟨h1.1 ▸ h2.1, h1.2.1 ▸ h2.2.1, le_trans h2.2.2 hle⟩

/-- When the walk multiset of a work list is defined, the unpinning
walk succeeds and its sole effect is to subtract that multiset from
the indirect map (one decrement per path reaching a key). -/
theorem unpinDescend_walk (dserv : Dserv) :
    ∀ (fuel : Nat) (ks : List Key) (st : PinState) (m : Multiset Key),
      walkMS dserv fuel ks = some m →
      unpinDescend dserv fuel ks st =
        (none, ⟨st.recursePin, st.directPin, st.indirPin - m⟩) := by
  intro fuel
  induction fuel with
  | zero =>
    intro ks st m hw
    cases ks with
    | nil =>
      simp [walkMS] at hw
      simp [unpinDescend, ← hw]
    | cons c rest => simp [walkMS] at hw
  | succ n ih =>
    intro ks st m hw
    cases ks with
    | nil =>
      simp [walkMS] at hw
      simp [unpinDescend, ← hw]
    | cons c rest =>
      simp only [walkMS] at hw
      cases hdc : dserv c with
      | none => rw [hdc] at hw; simp at hw
      | some ls =>
        rw [hdc] at hw
        simp only at hw
        cases h1 : walkMS dserv n ls with
        | none => rw [h1] at hw; simp at hw
        | some m1 =>
          cases h2 : walkMS dserv n rest with
          | none => rw [h1, h2] at hw; simp at hw
          | some m2 =>
            rw [h1, h2] at hw
            simp only [Option.some.injEq] at hw
            simp only [unpinDescend, hdc]
            rw [ih ls ⟨st.recursePin, st.directPin, st.indirPin.erase c⟩ m1 h1]
            simp only
            rw [ih rest _ m2 h2]
            simp only [Prod.mk.injEq, PinState.mk.injEq, true_and]
            rw [← hw, ← Multiset.sub_singleton, tsub_tsub, tsub_tsub, Multiset.singleton_add]

/-! Helper lemmas about the colored-set build. -/

/-- Shape of the two link getters of `gc.ColoredSet`: a call either
leaves the state untouched, or keeps the set, raises the error flag and
appends exactly one per-key fetch-error result. -/
def GetLOk (getL : GetL) : Prop :=
  ∀ (k : Key) (s : CSState),
    (getL k s).2 = s ∨
      ((getL k s).2.gcs = s.gcs ∧ (getL k s).2.errs = true ∧
        ∃ j, (getL k s).2.out = s.out ++ [Result.cannotFetchLinks j])

theorem strictLinks_ok (ng : Ng) : GetLOk (strictLinks ng) := by
  intro k s
  cases h : ng k <;> simp [strictLinks, h]

theorem beLinks_ok (ng : Ng) : GetLOk (beLinks ng) := by
  intro k s
  cases h : ng k <;> simp [beLinks, h]

/-- Invariant of the build state: the error flag is set exactly when a
per-key fetch error has been emitted, and no removed-key result has
been emitted. -/
def CSInv (s : CSState) : Prop :=
  (s.errs = true ↔ ∃ k, Result.cannotFetchLinks k ∈ s.out) ∧
  ∀ k, Result.keyRemoved k ∉ s.out

theorem getL_inv {getL : GetL} (hok : GetLOk getL) (k : Key) (s : CSState)
    (h : CSInv s) : CSInv ((getL k s).2) := by
  rcases hok k s with heq | ⟨_, herr, j, hout⟩
  · rw [heq]; exact h
  · constructor
    · rw [herr, hout]
      simp only [true_iff, List.mem_append, List.mem_singleton]
      exact ⟨j, Or.inr rfl⟩
    · intro k2
      rw [hout]
      simp only [List.mem_append, List.mem_singleton, not_or]
      exact ⟨h.2 k2, by simp⟩

theorem getL_gcs {getL : GetL} (hok : GetLOk getL) (k : Key) (s : CSState) :
    (getL k s).2.gcs = s.gcs := by
  rcases hok k s with heq | ⟨hgcs, _, _⟩
  · rw [heq]
  · exact hgcs

theorem enumKids_inv {getL : GetL} (hok : GetLOk getL) :
    ∀ (fuel : Nat) (ks : List Key) (s : CSState),
      (CSInv s → CSInv (enumKids getL fuel ks s)) ∧
      s.gcs ⊆ (enumKids getL fuel ks s).gcs := by
  intro fuel
  induction fuel with
  | zero =>
    intro ks s
    cases ks <;> simp [enumKids]
  | succ n ih =>
    intro ks s
    cases ks with
    | nil => simp [enumKids]
    | cons c rest =>
      simp only [enumKids]
      by_cases hc : c ∈ s.gcs
      · simpa [hc] using ih rest s
      · simp only [hc, if_false]
        rcases hgl : getL c ⟨insert c s.gcs, s.errs, s.out⟩ with ⟨ls, s2⟩
        have hinv2 : CSInv s → CSInv s2 := by
          intro hs
          have := getL_inv hok c ⟨insert c s.gcs, s.errs, s.out⟩ hs
          rwa [hgl] at this
        have hgcs2 : insert c s.gcs ⊆ s2.gcs := by
          have := getL_gcs hok c ⟨insert c s.gcs, s.errs, s.out⟩
          rw [hgl] at this
          exact this ▸ Finset.Subset.refl _
        constructor
        · intro hs
          exact ((ih rest _).1 ((ih ls s2).1 (hinv2 hs)))
        · calc s.gcs ⊆ insert c s.gcs := Finset.subset_insert _ _
            _ ⊆ s2.gcs := hgcs2
            _ ⊆ (enumKids getL n ls s2).gcs := (ih ls s2).2
            _ ⊆ _ := (ih rest _).2

theorem descendants_inv {getL : GetL} (hok : GetLOk getL) (fuel : Nat) :
    ∀ (roots : List Key) (s : CSState),
      (CSInv s → CSInv (descendants getL fuel roots s)) ∧
      s.gcs ⊆ (descendants getL fuel roots s).gcs ∧
      ∀ r ∈ roots, r ∈ (descendants getL fuel roots s).gcs := by
  intro roots
  induction roots with
  | nil => intro s; simp [descendants]
  | cons c rest ih =>
    intro s
    simp only [descendants]
    rcases hgl : getL c ⟨insert c s.gcs, s.errs, s.out⟩ with ⟨ls, s2⟩
    have hinv2 : CSInv s → CSInv s2 := by
      intro hs
      have := getL_inv hok c ⟨insert c s.gcs, s.errs, s.out⟩ hs
      rwa [hgl] at this
    have hgcs2 : insert c s.gcs ⊆ s2.gcs := by
      have := getL_gcs hok c ⟨insert c s.gcs, s.errs, s.out⟩
      rw [hgl] at this
      exact this ▸ Finset.Subset.refl _
    have hsub : insert c s.gcs ⊆ (descendants getL fuel rest (enumKids getL fuel ls s2)).gcs :=
      calc insert c s.gcs ⊆ s2.gcs := hgcs2
        _ ⊆ (enumKids getL fuel ls s2).gcs := (enumKids_inv hok fuel ls s2).2
        _ ⊆ _ := (ih _).2.1
    refine ⟨fun hs => (ih _).1 ((enumKids_inv hok fuel ls s2).1 (hinv2 hs)), ?_, ?_⟩
    · exact le_trans (Finset.subset_insert _ _) hsub
    · intro r hr
      rcases List.mem_cons.mp hr with rfl | hr
      · exact hsub (Finset.mem_insert_self _ _)
      · exact (ih _).2.2 r hr

/-- The final state of the colored-set build satisfies the invariant,
starting from the empty state. -/
theorem csBuild_inv (ng : Ng) (fuel : Nat)
    (recursiveKeys bestEffortRoots directKeys internalPins : List Key) :
    CSInv (csBuild ng fuel recursiveKeys bestEffortRoots directKeys internalPins) := by
  have h0 : CSInv ⟨∅, false, []⟩ := by constructor <;> simp
  have h1 := (descendants_inv (strictLinks_ok ng) fuel recursiveKeys ⟨∅, false, []⟩).1 h0
  have h2 := (descendants_inv (beLinks_ok ng) fuel bestEffortRoots _).1 h1
  have h3 : CSInv (csAfterDirect directKeys
      (descendants (beLinks ng) fuel bestEffortRoots
        (descendants (strictLinks ng) fuel recursiveKeys ⟨∅, false, []⟩))) := h2
  exact (descendants_inv (strictLinks_ok ng) fuel internalPins _).1 h3

/-- Folding direct keys into the set only enlarges it. -/
theorem foldl_insert_subset :
    ∀ (dk : List Key) (g : Finset Key), g ⊆ dk.foldl (fun g k => insert k g) g := by
  intro dk
  induction dk with
  | nil => intro g; simp
  | cons k rest ih =>
    intro g
    simpa using le_trans (Finset.subset_insert k g) (ih (insert k g))

/-- Every recursively pinned root ends up in the built set. -/
theorem csBuild_roots_mem (ng : Ng) (fuel : Nat)
    (recursiveKeys bestEffortRoots directKeys internalPins : List Key) :
    ∀ r ∈ recursiveKeys,
      r ∈ (csBuild ng fuel recursiveKeys bestEffortRoots directKeys internalPins).gcs := by
  intro r hr
  have h1 := (descendants_inv (strictLinks_ok ng) fuel recursiveKeys
    (⟨∅, false, []⟩ : CSState)).2.2 r hr
  have h2 := (descendants_inv (beLinks_ok ng) fuel bestEffortRoots
    (descendants (strictLinks ng) fuel recursiveKeys ⟨∅, false, []⟩)).2.1 h1
  have h3 : r ∈ (csAfterDirect directKeys
      (descendants (beLinks ng) fuel bestEffortRoots
        (descendants (strictLinks ng) fuel recursiveKeys ⟨∅, false, []⟩))).gcs :=
    foldl_insert_subset directKeys _ h2
  exact (descendants_inv (strictLinks_ok ng) fuel internalPins _).2.1 h3

/-- Both branches of `ColoredSet` return the build's emitted results. -/
theorem coloredSet_snd (ng : Ng) (fuel : Nat)
    (recursiveKeys bestEffortRoots directKeys internalPins : List Key) :
    (ColoredSet ng fuel recursiveKeys bestEffortRoots directKeys internalPins).2 =
      (csBuild ng fuel recursiveKeys bestEffortRoots directKeys internalPins).out := by
  simp only [ColoredSet]
  split <;> rfl

/-- The sweep loop, characterized: it emits, in store order, one
removed-key result per deleted key and one per-key error per failed
deletion; it keeps exactly the live keys and the keys whose deletion
failed; the failure flag is set iff some deletion failed. -/
theorem sweep_eq (gcs : Finset Key) (canDelete : Key → Bool) :
    ∀ store : List Key,
      sweep gcs canDelete store =
        (store.filterMap (fun k =>
            if k ∈ gcs then none
            else if canDelete k then some (Result.keyRemoved k)
            else some (Result.cannotDeleteBlock k)),
         store.filter (fun k => decide (k ∈ gcs) || !canDelete k),
         store.any (fun k => !decide (k ∈ gcs) && !canDelete k)) := by
  intro store
  induction store with
  | nil => simp [sweep]
  | cons k rest ih =>
    simp only [sweep, ih]
    by_cases hk : k ∈ gcs
    · simp [hk, List.filterMap_cons, List.filter_cons, List.any_cons]
    · cases hd : canDelete k <;>
        simp [hk, hd, List.filterMap_cons, List.filter_cons, List.any_cons]

/-! Concrete example inputs used by witnesses and counterexamples. -/

/-- A DAG with two roots 1 and 2 both linking to the shared child 3,
which is a leaf. -/
def dservShared : Dserv := fun k =>
  if k = 1 then some [3] else if k = 2 then some [3] else if k = 3 then some [] else none

/-- A DAG where node 1 links to node 2, and fetching node 2 fails. -/
def dservBroken : Dserv := fun k => if k = 1 then some [2] else none

/-- A DAG service where every fetch fails. -/
def dservNone : Dserv := fun _ => none

/-- A node getter where every resolution fails (non-not-found). -/
def ngAllFail : Ng := fun _ => FetchRes.failed

/-- A node getter where every node resolves with no links. -/
def ngAllNil : Ng := fun _ => FetchRes.found []

/-! The claims. -/

/-- C7: Pin keeps the recursive and direct sets mutually exclusive
(stated for states satisfying the exclusivity invariant): after a
successful recursive Pin the key is in the recursive set, absent from
the direct set even if previously direct-pinned, and the sets stay
disjoint; a direct Pin of a recursively pinned key fails and leaves the
state unchanged, so nothing is added to the direct set. -/
theorem pin_keeps_recursive_direct_exclusive (dserv : Dserv) (fuel : Nat) (node : Node)
    (st : PinState) (hdisj : Disjoint st.recursePin st.directPin) :
    (∀ st', Pin dserv fuel node true st = (none, st') →
      node.key ∈ st'.recursePin ∧ node.key ∉ st'.directPin ∧
      Disjoint st'.recursePin st'.directPin) ∧
    (node.key ∈ st.recursePin →
      (Pin dserv fuel node false st).1 ≠ none ∧ (Pin dserv fuel node false st).2 = st) := by
  constructor
  · intro st' hpin
    by_cases hmem : node.key ∈ st.recursePin
    · simp only [Pin, if_pos rfl, if_true, if_pos hmem, Prod.mk.injEq, true_and] at hpin
      subst hpin
      exact ⟨hmem, Finset.disjoint_left.mp hdisj hmem, hdisj⟩
    · have hps := pinDescend_state dserv fuel node.links
        ⟨st.recursePin, st.directPin.erase node.key, st.indirPin⟩
      rcases hpd : pinDescend dserv fuel node.links
          ⟨st.recursePin, st.directPin.erase node.key, st.indirPin⟩ with ⟨e, st2⟩
      rw [hpd] at hps
      simp only [Pin, if_pos rfl, if_true, hmem, if_false, hpd] at hpin
      cases e with
      | some err => simp at hpin
      | none =>
        simp only [Prod.mk.injEq, true_and] at hpin
        subst hpin
        refine ⟨Finset.mem_insert_self _ _, ?_, ?_⟩
        · rw [hps.2.1]
          exact Finset.not_mem_erase _ _
        · rw [Finset.disjoint_insert_left, hps.1, hps.2.1]
          exact ⟨Finset.not_mem_erase _ _,
            Disjoint.mono_right (Finset.erase_subset _ _) hdisj⟩
  · intro hmem
    cases hd : dserv node.key with
    | none => simp [Pin, hd]
    | some ls => simp [Pin, hd, hmem]

/-- Witness for C7 at a concrete input: key 1 was direct-pinned, a
successful recursive Pin leaves it recursively pinned and not
direct-pinned. -/
theorem pin_keeps_recursive_direct_exclusive_witness :
    (1 : Key) ∈ (insert 1 (∅ : Finset Key)) ∧ (1 : Key) ∉ (∅ : Finset Key) ∧
    Disjoint (insert 1 (∅ : Finset Key)) (∅ : Finset Key) :=
  (pin_keeps_recursive_direct_exclusive dservNone 1 ⟨1, []⟩ ⟨∅, {1}, 0⟩
    (by simp)).1 ⟨insert 1 ∅, ∅, 0⟩ (by decide)

/-- C8: a recursive Pin of an already recursively pinned key is a
success and a complete no-op (no traversal, no refcount change), and an
Unpin of a key in none of the three structures fails with the
not-pinned error and changes nothing. -/
theorem pin_idempotent_unpin_unpinned_fails (dserv : Dserv) (fuel : Nat) (node : Node)
    (k : Key) (recursive : Bool) (st : PinState) :
    (node.key ∈ st.recursePin → Pin dserv fuel node true st = (none, st)) ∧
    (k ∉ st.recursePin → k ∉ st.directPin → k ∉ st.indirPin →
      Unpin dserv fuel k recursive st = (some (PinErr.notPinned k), st)) := by
  constructor
  · intro h
    simp [Pin, h]
  · intro h1 h2 h3
    simp [Unpin, h1, h2, h3]

/-- Witness for C8 at a concrete input. -/
theorem pin_idempotent_unpin_unpinned_fails_witness :
    Pin dservNone 0 ⟨1, [9]⟩ true ⟨{1}, ∅, 0⟩ = (none, ⟨{1}, ∅, 0⟩) ∧
    Unpin dservNone 0 2 false ⟨{1}, ∅, 0⟩ = (some (PinErr.notPinned 2), ⟨{1}, ∅, 0⟩) :=
  ⟨(pin_idempotent_unpin_unpinned_fails dservNone 0 ⟨1, [9]⟩ 2 false ⟨{1}, ∅, 0⟩).1
      (by decide),
   (pin_idempotent_unpin_unpinned_fails dservNone 0 ⟨1, [9]⟩ 2 false ⟨{1}, ∅, 0⟩).2
      (by decide) (by decide) (by decide)⟩

/-- C9: the manual interface can violate the recursive/direct
mutual-exclusion invariant: `PinWithMode(k, Recursive)` only inserts
into the recursive set, so on a direct-pinned key it leaves the key in
both sets — unlike `Pin(k, recursive=true)`, whose success always takes
the key out of the direct set. -/
theorem pinWithMode_violates_exclusion (k : Key) (st : PinState) :
    PinWithMode k Recursive st = ⟨insert k st.recursePin, st.directPin, st.indirPin⟩ ∧
    (k ∈ st.directPin →
      k ∈ (PinWithMode k Recursive st).recursePin ∧
      k ∈ (PinWithMode k Recursive st).directPin) ∧
    (∀ (dserv : Dserv) (fuel : Nat) (links : List Key) (st' : PinState),
      k ∉ st.recursePin → Pin dserv fuel ⟨k, links⟩ true st = (none, st') →
      k ∉ st'.directPin) := by
  refine ⟨by simp [PinWithMode, Recursive], ?_, ?_⟩
  · intro h
    simp [PinWithMode, Recursive, h]
  · intro dserv fuel links st' hnr hpin
    have hps := pinDescend_state dserv fuel links
      ⟨st.recursePin, st.directPin.erase k, st.indirPin⟩
    rcases hpd : pinDescend dserv fuel links
        ⟨st.recursePin, st.directPin.erase k, st.indirPin⟩ with ⟨e, st2⟩
    rw [hpd] at hps
    simp only [Pin, if_pos rfl, if_true, hnr, if_false, hpd] at hpin
    cases e with
    | some err => simp at hpin
    | none =>
      simp only [Prod.mk.injEq, true_and] at hpin
      subst hpin
      rw [hps.2.1]
      exact Finset.not_mem_erase _ _

/-- Witness for C9 at a concrete input: key 1 direct-pinned, then
manually recursive-pinned, is in both sets. -/
theorem pinWithMode_violates_exclusion_witness :
    (1 : Key) ∈ (PinWithMode 1 Recursive ⟨∅, {1}, 0⟩).recursePin ∧
    (1 : Key) ∈ (PinWithMode 1 Recursive ⟨∅, {1}, 0⟩).directPin :=
  (pinWithMode_violates_exclusion 1 ⟨∅, {1}, 0⟩).2.1 (by decide)

/-- C10: `RemovePinWithMode` with a mode other than Direct, Indirect or
Recursive hits the switch's default case and panics (modelled as
`none`), whereas `PinWithMode` with such a mode falls through its
switch and returns with the state unchanged. -/
theorem removePinWithMode_unknown_mode (k : Key) (st : PinState) (mode : Nat)
    (h1 : mode ≠ Recursive) (h2 : mode ≠ Direct) (h3 : mode ≠ Indirect) :
    RemovePinWithMode k mode st = none ∧ PinWithMode k mode st = st := by
  simp [RemovePinWithMode, PinWithMode, h1, h2, h3]

/-- Witness for C10 at mode `NotPinned`. -/
theorem removePinWithMode_unknown_mode_witness :
    RemovePinWithMode 1 NotPinned ⟨{1}, {2}, {3}⟩ = none ∧
    PinWithMode 1 NotPinned ⟨{1}, {2}, {3}⟩ = ⟨{1}, {2}, {3}⟩ :=
  removePinWithMode_unknown_mode 1 ⟨{1}, {2}, {3}⟩ NotPinned
    (by decide) (by decide) (by decide)

/-- C5: the exact case analysis of Unpin: recursively pinned and
non-recursive call fails changing nothing; recursively pinned and
recursive call removes the key from the recursive set and decrements
the indirect count of every descendant once per path of the walk of
the key's links; otherwise a direct pin is removed regardless of the
flag; otherwise an indirect pin fails; otherwise the not-pinned
error. -/
theorem unpin_case_analysis (dserv : Dserv) (fuel : Nat) (k : Key) (recursive : Bool)
    (st : PinState) :
    (k ∈ st.recursePin → recursive = false →
      Unpin dserv fuel k recursive st = (some (PinErr.pinnedRecursively k), st)) ∧
    (k ∈ st.recursePin → ∀ (ls : List Key) (m : Multiset Key),
      dserv k = some ls → walkMS dserv fuel ls = some m →
      Unpin dserv fuel k true st =
        (none, ⟨st.recursePin.erase k, st.directPin, st.indirPin - m⟩)) ∧
    (k ∉ st.recursePin → k ∈ st.directPin →
      Unpin dserv fuel k recursive st =
        (none, ⟨st.recursePin, st.directPin.erase k, st.indirPin⟩)) ∧
    (k ∉ st.recursePin → k ∉ st.directPin → k ∈ st.indirPin →
      Unpin dserv fuel k recursive st = (some (PinErr.pinnedIndirectly k), st)) ∧
    (k ∉ st.recursePin → k ∉ st.directPin → k ∉ st.indirPin →
      Unpin dserv fuel k recursive st = (some (PinErr.notPinned k), st)) := by
  refine ⟨?_, ?_, ?_, ?_, ?_⟩
  · intro hmem hrec
    simp [Unpin, hmem, hrec]
  · intro hmem ls m hd hw
    simp only [Unpin, hmem, if_true, if_pos rfl, hd]
    rw [unpinDescend_walk dserv fuel ls ⟨st.recursePin.erase k, st.directPin, st.indirPin⟩ m hw]
  · intro h1 h2
    simp [Unpin, h1, h2]
  · intro h1 h2 h3
    simp [Unpin, h1, h2, h3]
  · intro h1 h2 h3
    simp [Unpin, h1, h2, h3]

/-- Witness for C5 at a concrete input: recursively unpinning root 1
(whose single descendant is 3) decrements 3's count from 1 to 0. -/
theorem unpin_case_analysis_witness :
    Unpin dservShared 1 1 true ⟨{1}, ∅, {3}⟩ = (none, ⟨∅, ∅, 0⟩) := by
  have h := (unpin_case_analysis dservShared 1 1 true ⟨{1}, ∅, {3}⟩).2.1
    (by decide) [3] (3 ::ₘ (0 + 0)) (by decide) (by decide)
  rw [h]
  decide

/-- C1: two distinct recursive roots each reaching the shared child c
by exactly one path: after pinning both roots recursively c's indirect
count is 2; after recursively unpinning the first root it is 1 and c is
still pinned; after recursively unpinning the second root the entry is
gone (count 0) and c is no longer pinned. -/
theorem refcount_shared_child (dserv : Dserv) (f : Nat) (r1 r2 c : Key)
    (h12 : r1 ≠ r2) (_hc1 : c ≠ r1) (hc2 : c ≠ r2)
    (hd1 : dserv r1 = some [c]) (hd2 : dserv r2 = some [c]) (hdc : dserv c = some []) :
    Pin dserv (f+1) ⟨r1, [c]⟩ true ⟨∅, ∅, 0⟩ = (none, ⟨{r1}, ∅, {c}⟩) ∧
    Pin dserv (f+1) ⟨r2, [c]⟩ true ⟨{r1}, ∅, {c}⟩ =
      (none, ⟨insert r2 {r1}, ∅, c ::ₘ {c}⟩) ∧
    Multiset.count c (c ::ₘ {c}) = 2 ∧
    Unpin dserv (f+1) r1 true ⟨insert r2 {r1}, ∅, c ::ₘ {c}⟩ = (none, ⟨{r2}, ∅, {c}⟩) ∧
    Multiset.count c ({c} : Multiset Key) = 1 ∧
    IsPinned ⟨{r2}, ∅, {c}⟩ c = true ∧
    Unpin dserv (f+1) r2 true ⟨{r2}, ∅, {c}⟩ = (none, ⟨∅, ∅, 0⟩) ∧
    c ∉ (0 : Multiset Key) ∧
    IsPinned ⟨∅, ∅, 0⟩ c = false := by
  refine ⟨?_, ?_, by simp, ?_, by simp, ?_, ?_, by simp, by simp [IsPinned]⟩
  · simp [Pin, pinDescend, hdc]
  · simp [Pin, pinDescend, hdc, h12.symm]
  · have herase : (insert r2 {r1} : Finset Key).erase r1 = {r2} := by
      rw [Finset.erase_insert_of_ne h12.symm, Finset.erase_singleton]
      simp
    simp [Unpin, Finset.mem_insert, Finset.mem_singleton, herase, hd1, unpinDescend, hdc,
      Multiset.erase_cons_head]
  · simp [IsPinned, hc2]
  · simp [Unpin, hd2, unpinDescend, hdc, Finset.erase_singleton]

/-- Witness for C1 at the concrete shared-child DAG (roots 1 and 2,
shared leaf child 3). -/
theorem refcount_shared_child_witness :
    Pin dservShared 1 ⟨1, [3]⟩ true ⟨∅, ∅, 0⟩ = (none, ⟨{1}, ∅, {3}⟩) ∧
    Pin dservShared 1 ⟨2, [3]⟩ true ⟨{1}, ∅, {3}⟩ =
      (none, ⟨insert 2 {1}, ∅, 3 ::ₘ {3}⟩) ∧
    Multiset.count 3 (3 ::ₘ {3}) = 2 ∧
    Unpin dservShared 1 1 true ⟨insert 2 {1}, ∅, 3 ::ₘ {3}⟩ = (none, ⟨{2}, ∅, {3}⟩) ∧
    Multiset.count 3 ({3} : Multiset Key) = 1 ∧
    IsPinned ⟨{2}, ∅, {3}⟩ 3 = true ∧
    Unpin dservShared 1 2 true ⟨{2}, ∅, {3}⟩ = (none, ⟨∅, ∅, 0⟩) ∧
    (3 : Key) ∉ (0 : Multiset Key) ∧
    IsPinned ⟨∅, ∅, 0⟩ 3 = false :=
  refcount_shared_child dservShared 0 1 2 3 (by decide) (by decide) (by decide)
    (by decide) (by decide) (by decide)

/-- C6 counterexample: the claim that a failing recursive Pin does not
lose an existing direct pin, and that a failing recursive Unpin does
not lose the recursive pin, is false on the code.  With key 1
direct-pinned and node 1 linking to the unfetchable node 2, the
recursive Pin of node 1 fails with a fetch error yet key 1 is no
longer direct-pinned; with key 1 recursively pinned and its node
unfetchable, the recursive Unpin of key 1 fails with a fetch error yet
key 1 is no longer recursively pinned. -/
theorem pin_unpin_error_not_state_preserving :
    Pin dservBroken 1 ⟨1, [2]⟩ true ⟨∅, {1}, 0⟩ =
      (some (PinErr.fetchFail 2), ⟨∅, ∅, 0⟩) ∧
    (1 : Key) ∈ ({1} : Finset Key) ∧
    (1 : Key) ∉ (∅ : Finset Key) ∧
    Unpin dservNone 1 1 true ⟨{1}, ∅, 0⟩ =
      (some (PinErr.fetchFail 1), ⟨∅, ∅, 0⟩) ∧
    (1 : Key) ∈ ({1} : Finset Key) ∧
    (1 : Key) ∉ (∅ : Finset Key) := by
  decide

/-- C6 amended: an erroring Pin or Unpin leaves the three structures
exactly as they were, except that an erroring recursive Pin has already
removed any existing direct pin on the pinned key and retains the
indirect increments made before the failure, and an erroring recursive
Unpin of a recursively pinned key has already removed the key from the
recursive set and retains the indirect decrements made before the
failure: an erroring direct Pin changes nothing at all, and an erroring
Unpin outside the excepted class (non-recursive call on a recursive
pin, indirectly pinned key, unpinned key) changes nothing at all. -/
theorem pin_unpin_error_state (dserv : Dserv) (fuel : Nat) (node : Node) (k : Key)
    (recursive : Bool) (st : PinState) :
    (∀ e st', Pin dserv fuel node false st = (some e, st') → st' = st) ∧
    (∀ e st', Pin dserv fuel node true st = (some e, st') →
      st'.recursePin = st.recursePin ∧
      st'.directPin = st.directPin.erase node.key ∧
      st.indirPin ≤ st'.indirPin) ∧
    (∀ e st', Unpin dserv fuel k recursive st = (some e, st') →
      (recursive = true ∧ k ∈ st.recursePin →
        st'.recursePin = st.recursePin.erase k ∧
        st'.directPin = st.directPin ∧
        st'.indirPin ≤ st.indirPin) ∧
      (¬(recursive = true ∧ k ∈ st.recursePin) → st' = st)) := by
  refine ⟨?_, ?_, ?_⟩
  · intro e st' h
    cases hd : dserv node.key with
    | none =>
      simp only [Pin, hd] at h
      simp only [Bool.false_eq_true, if_false, Prod.mk.injEq] at h
      exact h.2.symm
    | some ls =>
      simp only [Pin, hd, Bool.false_eq_true, if_false] at h
      by_cases hmem : node.key ∈ st.recursePin
      · simp only [hmem, if_true, Prod.mk.injEq] at h
        exact h.2.symm
      · simp only [hmem, if_false, Prod.mk.injEq] at h
        exact absurd h.1 (by simp)
  · intro e st' h
    by_cases hmem : node.key ∈ st.recursePin
    · simp only [Pin, if_pos rfl, if_true, hmem, Prod.mk.injEq] at h
      exact absurd h.1 (by simp)
    · have hps := pinDescend_state dserv fuel node.links
        ⟨st.recursePin, st.directPin.erase node.key, st.indirPin⟩
      rcases hpd : pinDescend dserv fuel node.links
          ⟨st.recursePin, st.directPin.erase node.key, st.indirPin⟩ with ⟨eo, st2⟩
      rw [hpd] at hps
      simp only [Pin, if_pos rfl, if_true, hmem, if_false, hpd] at h
      cases eo with
      | none => simp at h
      | some err =>
        simp only [Prod.mk.injEq, Option.some.injEq] at h
        rw [← h.2]
        exact hps
  · intro e st' h
    by_cases hmem : k ∈ st.recursePin
    · cases recursive with
      | false =>
        simp only [Unpin, hmem, if_true, Bool.false_eq_true, if_false, Prod.mk.injEq] at h
        constructor
        · rintro ⟨hrec, -⟩
          exact absurd hrec (by simp)
        · intro _
          exact h.2.symm
      | true =>
        constructor
        · intro _
          cases hd : dserv k with
          | none =>
            simp only [Unpin, hmem, if_true, hd, Prod.mk.injEq] at h
            rw [← h.2]
            exact ⟨rfl, rfl, le_refl _⟩
          | some ls =>
            have hus := unpinDescend_state dserv fuel ls
              ⟨st.recursePin.erase k, st.directPin, st.indirPin⟩
            rcases hud : unpinDescend dserv fuel ls
                ⟨st.recursePin.erase k, st.directPin, st.indirPin⟩ with ⟨eo, st2⟩
            rw [hud] at hus
            simp only [Unpin, hmem, if_true, hd, hud, Prod.mk.injEq] at h
            cases eo with
            | none => simp at h
            | some err =>
              simp only [Option.some.injEq] at h
              rw [← h.2]
              exact ⟨hus.1, hus.2.1, hus.2.2⟩
        · intro hn
          exact absurd ⟨rfl, hmem⟩ hn
    · constructor
      · rintro ⟨-, hmem2⟩
        exact absurd hmem2 hmem
      · intro _
        simp only [Unpin, hmem, if_false] at h
        by_cases hdir : k ∈ st.directPin
        · simp only [hdir, if_true, Prod.mk.injEq] at h
          exact absurd h.1 (by simp)
        · by_cases hind : k ∈ st.indirPin
          · simp only [hdir, if_false, hind, if_true, Prod.mk.injEq] at h
            exact h.2.symm
          · simp only [hdir, if_false, hind, Prod.mk.injEq] at h
            exact h.2.symm

/-- Witness for the amended C6 at concrete erroring calls: for a
recursive Pin of node 1 whose grandchild 3 is unfetchable, the direct
pin on key 1 is (already) gone and one indirect increment was retained
for the fetched child 2; for a recursive Unpin of the recursively
pinned but unfetchable key 1, the recursive pin is (already) gone with
no other change. -/
theorem pin_unpin_error_state_witness :
    ((⟨∅, ∅, (2 : Key) ::ₘ 0⟩ : PinState).recursePin = (⟨∅, {1}, 0⟩ : PinState).recursePin ∧
     (⟨∅, ∅, (2 : Key) ::ₘ 0⟩ : PinState).directPin =
       (⟨∅, {1}, 0⟩ : PinState).directPin.erase 1 ∧
     (⟨∅, {1}, 0⟩ : PinState).indirPin ≤ (⟨∅, ∅, (2 : Key) ::ₘ 0⟩ : PinState).indirPin) ∧
    ((⟨∅, ∅, 0⟩ : PinState).recursePin = ({1} : Finset Key).erase 1 ∧
     (⟨∅, ∅, 0⟩ : PinState).directPin = (∅ : Finset Key) ∧
     (⟨∅, ∅, 0⟩ : PinState).indirPin ≤ (0 : Multiset Key)) :=
  ⟨(pin_unpin_error_state (fun k => if k = 1 then some [2] else if k = 2 then some [3] else none)
      2 ⟨1, [2]⟩ 1 true ⟨∅, {1}, 0⟩).2.1
    (PinErr.fetchFail 3) ⟨∅, ∅, 2 ::ₘ 0⟩ (by decide),
   ((pin_unpin_error_state dservNone 1 ⟨0, []⟩ 1 true ⟨{1}, ∅, 0⟩).2.2
      (PinErr.fetchFail 1) ⟨∅, ∅, 0⟩ (by decide)).1 ⟨rfl, by decide⟩⟩

/-- C2: whenever the colored-set build succeeds, the GC sweep deletes
exactly the keys not in the live set (keys whose deletion fails remain
in the store), emits — in store order — one removed-key result per
deleted key and one per-key error per failed deletion, and after the
enumeration is exhausted emits one final aggregate
"could not delete some blocks" error iff at least one deletion
failed. -/
theorem gc_sweep_exact (ng : Ng) (fuel : Nat)
    (rk be dk ip store : List Key) (canDelete : Key → Bool)
    (gcs : Finset Key) (out : List Result)
    (hcs : ColoredSet ng fuel rk be dk ip = (some gcs, out)) :
    (GC ng fuel rk be dk ip store canDelete).2 =
      store.filter (fun k => decide (k ∈ gcs) || !canDelete k) ∧
    (GC ng fuel rk be dk ip store canDelete).1 =
      out ++
        store.filterMap (fun k =>
          if k ∈ gcs then none
          else if canDelete k then some (Result.keyRemoved k)
          else some (Result.cannotDeleteBlock k)) ++
        (if store.any (fun k => !decide (k ∈ gcs) && !canDelete k)
          then [Result.errCannotDeleteSomeBlocks] else []) := by
  simp only [GC, hcs, sweep_eq]
  constructor <;> (first | rfl | trivial)

/-- Witness for C2 on the spec's example: store {1,2,3,4}, live set
{1,2}; the sweep deletes exactly 3 and 4 and emits the two removed-key
results with no aggregate error. -/
theorem gc_sweep_exact_witness :
    (GC ngAllNil 1 [1, 2] [] [] [] [1, 2, 3, 4] (fun _ => true)).2 =
      List.filter (fun k => decide (k ∈ (insert 2 (insert 1 ∅) : Finset Key)) || !true)
        [1, 2, 3, 4] ∧
    (GC ngAllNil 1 [1, 2] [] [] [] [1, 2, 3, 4] (fun _ => true)).1 =
      [] ++
        List.filterMap (fun k =>
          if k ∈ (insert 2 (insert 1 ∅) : Finset Key) then none
          else if true then some (Result.keyRemoved k)
          else some (Result.cannotDeleteBlock k)) [1, 2, 3, 4] ++
        (if List.any [1, 2, 3, 4]
            (fun k => !decide (k ∈ (insert 2 (insert 1 ∅) : Finset Key)) && !true)
          then [Result.errCannotDeleteSomeBlocks] else []) :=
  gc_sweep_exact ngAllNil 1 [1, 2] [] [] [] [1, 2, 3, 4] (fun _ => true)
    (insert 2 (insert 1 ∅)) [] rfl

/-- C3: when the colored-set build returns its terminal error, GC
deletes nothing — the store keeps its entire key population, no
removed-key result is ever emitted, and the terminal error is the last
result on the stream. -/
theorem gc_abort_before_sweep (ng : Ng) (fuel : Nat)
    (rk be dk ip store : List Key) (canDelete : Key → Bool)
    (h : (ColoredSet ng fuel rk be dk ip).1 = none) :
    (GC ng fuel rk be dk ip store canDelete).2 = store ∧
    (GC ng fuel rk be dk ip store canDelete).1 =
      (ColoredSet ng fuel rk be dk ip).2 ++ [Result.errCannotFetchAllLinks] ∧
    (∀ k, Result.keyRemoved k ∉ (GC ng fuel rk be dk ip store canDelete).1) ∧
    (GC ng fuel rk be dk ip store canDelete).1.getLast? =
      some Result.errCannotFetchAllLinks := by
  rcases hcs : ColoredSet ng fuel rk be dk ip with ⟨res, outr⟩
  rw [hcs] at h
  simp only at h
  subst h
  have hout : outr = (csBuild ng fuel rk be dk ip).out := by
    have := coloredSet_snd ng fuel rk be dk ip
    rw [hcs] at this
    exact this
  have hnr : ∀ k, Result.keyRemoved k ∉ outr := by
    intro k
    rw [hout]
    exact (csBuild_inv ng fuel rk be dk ip).2 k
  refine ⟨?_, ?_, ?_, ?_⟩
  · simp [GC, hcs]
  · simp [GC, hcs]
  · intro k
    simp only [GC, hcs, List.mem_append, List.mem_singleton, not_or]
    exact ⟨hnr k, by simp⟩
  · simp only [GC, hcs]
    exact List.getLast?_concat _

/-- Witness for C3 at a concrete input: every strict fetch fails, so
the run aborts and the two-key store is untouched. -/
theorem gc_abort_before_sweep_witness :
    (GC ngAllFail 1 [1] [] [] [] [7, 8] (fun _ => true)).2 = [7, 8] ∧
    (GC ngAllFail 1 [1] [] [] [] [7, 8] (fun _ => true)).1 =
      (ColoredSet ngAllFail 1 [1] [] [] []).2 ++ [Result.errCannotFetchAllLinks] ∧
    (∀ k, Result.keyRemoved k ∉ (GC ngAllFail 1 [1] [] [] [] [7, 8] (fun _ => true)).1) ∧
    (GC ngAllFail 1 [1] [] [] [] [7, 8] (fun _ => true)).1.getLast? =
      some Result.errCannotFetchAllLinks :=
  gc_abort_before_sweep ngAllFail 1 [1] [] [] [] [7, 8] (fun _ => true) rfl

/-- C4: the colored-set build returns its terminal error (and no set)
iff some per-key fetch-error result was emitted during the build; on
success every recursively pinned root is in the returned set; and on
the concrete DAG where resolution of roots 1 and 2 both fail, both
per-key errors are emitted — the failure on root 1 does not stop the
traversal of root 2 — and the build returns the terminal error. -/
theorem coloredSet_error_iff (ng : Ng) (fuel : Nat) (rk be dk ip : List Key) :
    ((ColoredSet ng fuel rk be dk ip).1 = none ↔
      ∃ k, Result.cannotFetchLinks k ∈ (ColoredSet ng fuel rk be dk ip).2) ∧
    (∀ gcs, (ColoredSet ng fuel rk be dk ip).1 = some gcs → ∀ r ∈ rk, r ∈ gcs) ∧
    ColoredSet ngAllFail 1 [1, 2] [] [] [] =
      (none, [Result.cannotFetchLinks 1, Result.cannotFetchLinks 2]) := by
  have hinv := csBuild_inv ng fuel rk be dk ip
  refine ⟨?_, ?_, by decide⟩
  · rw [coloredSet_snd]
    simp only [ColoredSet]
    split
    next herr =>
      constructor
      · intro _
        exact hinv.1.mp herr
      · intro _
        rfl
    next herr =>
      constructor
      · intro hc
        simp at hc
      · intro hex
        exact absurd (hinv.1.mpr hex) herr
  · intro gcs hg r hr
    simp only [ColoredSet] at hg
    split at hg
    · simp at hg
    · simp only [Option.some.injEq] at hg
      subst hg
      exact csBuild_roots_mem ng fuel rk be dk ip r hr

/-- Witness for C4 at a concrete successful build: the recursive root
5 is in the returned set. -/
theorem coloredSet_error_iff_witness :
    (5 : Key) ∈ (insert 5 (∅ : Finset Key)) :=
  (coloredSet_error_iff ngAllNil 1 [5] [] [] []).2.1 (insert 5 ∅) rfl 5 (by simp)

end IpfsPin
